import Mathlib

/-!
Verification of the plexus-substrate streaming RPC hub against its
natural-language specification.

The Rust sources are shallowly embedded: strings are modelled as Lean
strings or as lists of characters (`List Char`) where parsing proofs
need structural induction, machine integers as `Nat`/`Int` with explicit
reduction modulo two to the sixty-fourth power where Rust wraps,
fallible functions as `Except`/`Option`, and asynchronous streams as the
finite list of items they yield.
-/

namespace PlexusSubstrate

/-! ## Character-list splitting helpers

These model the `str` splitting primitives used by `Handle::from_str`
(src/types.rs) and `Plexus::parse_method` (src/plexus/plexus.rs):
`split_once(c)` at the first occurrence of a character, `split_once("::")`
at the first occurrence of a two-colon pattern, and `split(c)`.
-/

/-- Rust `str::split_once(c)`: split at the first occurrence of the
character `c`; `none` when `c` does not occur. -/
def splitOnceChar (c : Char) : List Char → Option (List Char × List Char)
  | [] => none
  | x :: xs =>
    if x = c then some ([], xs)
    else (splitOnceChar c xs).map (fun p => (x :: p.1, p.2))

/-- Rust `str::split_once("::")`: split at the first occurrence of two
consecutive colons; `none` when no such occurrence exists. -/
def splitOnce2 : List Char → Option (List Char × List Char)
  | [] => none
  | x :: xs =>
    if x = ':' ∧ xs.head? = some ':' then some ([], xs.tail)
    else (splitOnce2 xs).map (fun p => (x :: p.1, p.2))

/-- Rust `str::split(c)`: split at every occurrence of `c`; the result is
always non-empty (splitting the empty string yields one empty part). -/
def splitChar (c : Char) : List Char → List (List Char)
  | [] => [[]]
  | x :: xs =>
    if x = c then [] :: splitChar c xs
    else
      match splitChar c xs with
      | h :: t => (x :: h) :: t
      | [] => [[x]]

theorem splitChar_ne_nil (c : Char) (l : List Char) : splitChar c l ≠ [] := by
  cases l with
  | nil => simp [splitChar]
  | cons x xs =>
    simp only [splitChar]
    split
    · simp
    · split <;> simp

theorem splitOnceChar_eq_none (c : Char) (l : List Char) :
    splitOnceChar c l = none ↔ c ∉ l := by
  induction l with
  | nil => simp [splitOnceChar]
  | cons x xs ih =>
    simp only [splitOnceChar]
    by_cases hx : x = c
    · simp [hx]
    · simp only [hx, if_false, Option.map_eq_none', List.mem_cons]
      rw [ih]
      constructor
      · rintro h (hc | hc)
        · exact hx hc.symm
        · exact h hc
      · intro h hc
        exact h (Or.inr hc)

theorem splitOnceChar_append (c : Char) (l r : List Char) (h : c ∉ l) :
    splitOnceChar c (l ++ c :: r) = some (l, r) := by
  induction l with
  | nil => simp [splitOnceChar]
  | cons x xs ih =>
    have hx : x ≠ c := fun hc => h (by simp [hc])
    have hxs : c ∉ xs := fun hc => h (by simp [hc])
    simp [splitOnceChar, hx, ih hxs]

theorem splitOnceChar_some (c : Char) {l a b : List Char}
    (h : splitOnceChar c l = some (a, b)) : l = a ++ c :: b ∧ c ∉ a := by
  induction l generalizing a with
  | nil => simp [splitOnceChar] at h
  | cons x xs ih =>
    simp only [splitOnceChar] at h
    by_cases hx : x = c
    · simp only [hx, if_true, Option.some_inj, Prod.mk.injEq] at h
      simp [hx, ← h.1, ← h.2]
    · simp only [hx, if_false, Option.map_eq_some'] at h
      obtain ⟨⟨p1, p2⟩, hp, hpa⟩ := h
      cases hpa
      obtain ⟨hl, hna⟩ := ih hp
      refine ⟨by simp [hl], ?_⟩
      simp only [List.mem_cons]
      rintro (hc | hc)
      · exact hx hc.symm
      · exact hna hc

/-- `noCC l` holds when `l` has no two consecutive colons. Applied to
`version ++ [colon]` it says the handle version neither contains a
two-colon substring nor ends in a colon. -/
def noCC : List Char → Bool
  | [] => true
  | x :: xs => (!(x = ':' ∧ xs.head? = some ':' : Bool)) && noCC xs

theorem head?_append_cons {α : Type} (xs : List α) (a : α) (t t' : List α) :
    (xs ++ a :: t).head? = (xs ++ a :: t').head? := by
  cases xs <;> simp

theorem splitOnce2_append (v r : List Char) (h : noCC (v ++ [':']) = true) :
    splitOnce2 (v ++ ':' :: ':' :: r) = some (v, r) := by
  induction v with
  | nil => simp [splitOnce2]
  | cons x xs ih =>
    simp only [List.cons_append, noCC, Bool.and_eq_true, Bool.not_eq_true',
      decide_eq_false_iff_not] at h
    obtain ⟨h1, h2⟩ := h
    have hhead : (xs ++ ':' :: ':' :: r).head? = (xs ++ [':']).head? :=
      head?_append_cons xs ':' _ _
    simp only [List.cons_append, splitOnce2]
    simp only [List.append_eq]
    rw [if_neg (by rw [hhead]; exact h1), ih h2]
    rfl

theorem splitOnce2_isSome (v r : List Char) :
    (splitOnce2 (v ++ ':' :: ':' :: r)).isSome = true := by
  induction v with
  | nil => simp [splitOnce2]
  | cons x xs ih =>
    simp only [List.cons_append, splitOnce2]
    split
    · rfl
    · simpa using ih

theorem splitOnce2_some {l a b : List Char}
    (h : splitOnce2 l = some (a, b)) : l = a ++ ':' :: ':' :: b := by
  induction l generalizing a with
  | nil => simp [splitOnce2] at h
  | cons x xs ih =>
    simp only [splitOnce2] at h
    split at h
    · rename_i hc
      obtain ⟨hx, hhd⟩ := hc
      simp only [Option.some_inj, Prod.mk.injEq] at h
      cases xs with
      | nil => simp at hhd
      | cons y ys =>
        simp only [List.head?_cons, Option.some_inj] at hhd
        simp only [List.tail_cons] at h
        simp [hx, hhd, ← h.1, ← h.2]
    · simp only [Option.map_eq_some'] at h
      obtain ⟨⟨p1, p2⟩, hp, hpa⟩ := h
      cases hpa
      simp [ih hp]

theorem splitChar_no_sep {c : Char} {m : List Char} (h : c ∉ m) :
    splitChar c m = [m] := by
  induction m with
  | nil => simp [splitChar]
  | cons x xs ih =>
    have hx : x ≠ c := fun hc => h (by simp [hc])
    have hxs : c ∉ xs := fun hc => h (by simp [hc])
    simp [splitChar, hx, ih hxs]

theorem splitChar_append_sep {c : Char} {m : List Char} (t : List Char)
    (h : c ∉ m) : splitChar c (m ++ c :: t) = m :: splitChar c t := by
  induction m with
  | nil => simp [splitChar]
  | cons x xs ih =>
    have hx : x ≠ c := fun hc => h (by simp [hc])
    have hxs : c ∉ xs := fun hc => h (by simp [hc])
    have := ih hxs
    simp only [List.cons_append, splitChar, hx, if_false]
    simp only [List.append_eq]
    rw [this]

theorem splitChar_method_meta {m : List Char} {meta : List (List Char)}
    (hm : ':' ∉ m) (hmeta : ∀ x ∈ meta, ':' ∉ x) :
    splitChar ':' (m ++ (meta.map (fun x => ':' :: x)).flatten) = m :: meta := by
  induction meta generalizing m with
  | nil => simpa using splitChar_no_sep hm
  | cons y ys ih =>
    have hy : ':' ∉ y := hmeta y (by simp)
    have hys : ∀ x ∈ ys, ':' ∉ x := fun x hx => hmeta x (by simp [hx])
    simp only [List.map_cons, List.flatten_cons, List.cons_append,
      List.append_assoc]
    rw [splitChar_append_sep _ hm, ih hy hys]

/-! ## Handle (src/types.rs)

`Handle` is the durable external reference `plugin@version::method[:meta]*`.
String fields are modelled as `List Char`.
-/

/-- The `Handle` struct of src/types.rs. -/
structure Handle where
  plugin : List Char
  version : List Char
  method : List Char
  meta : List (List Char)
deriving DecidableEq

/-- `impl Display for Handle` (src/types.rs): writes
`plugin@version::method` followed by one `:m` segment per meta entry. -/
def Handle.display (h : Handle) : List Char :=
  h.plugin ++ '@' :: (h.version ++ ':' :: ':' ::
    (h.method ++ (h.meta.map (fun m => ':' :: m)).flatten))

/-- `impl FromStr for Handle` (src/types.rs): split once at the first
at-sign, then once at the first double colon, then split the remainder
at every colon; the first part is the method, the rest is the meta list.
The error strings reproduce the `format!` messages of the source. -/
def Handle.fromStr (s : List Char) : Except (List Char) Handle :=
  match splitOnceChar '@' s with
  | none => .error ("Invalid handle format, missing @: ".data ++ s)
  | some (plugin, rest) =>
    match splitOnce2 rest with
    | none => .error ("Invalid handle format, missing a double colon: ".data ++ s)
    | some (version, methodMeta) =>
      match splitChar ':' methodMeta with
      | method :: meta => .ok ⟨plugin, version, method, meta⟩
      | [] => .error ("Invalid handle format, missing method: ".data ++ s)

theorem not_mem_getLast? {α : Type} {c : α} {m : List α} (h : c ∉ m) :
    m.getLast? ≠ some c := by
  induction m with
  | nil => simp
  | cons x xs ih =>
    cases xs with
    | nil =>
      intro hc
      simp only [List.getLast?_singleton, Option.some_inj] at hc
      exact h (by simp [hc])
    | cons y ys =>
      rw [List.getLast?_cons_cons]
      exact ih (fun hc => h (by simp [List.mem_cons] at hc ⊢; tauto))

/-- Concrete handle whose plugin field contains an at-sign. -/
def cexHandle : Handle := ⟨['a', '@', 'b'], ['1'], ['m'], []⟩

/-- Concrete valid handle from the specification scenarios:
`cone@1.0.0::chat:msg-123:user`. -/
def scenarioHandle : Handle :=
  ⟨"cone".data, "1.0.0".data, "chat".data, ["msg-123".data, "user".data]⟩

/-- C4: the round-trip fails on a handle with non-empty plugin, version
and method whose plugin contains an at-sign: display produces a string
that parses to a different handle. -/
theorem handle_roundtrip_counterexample :
    (Handle.fromStr (Handle.display cexHandle)).toOption ≠ some cexHandle ∧
    (Handle.fromStr (Handle.display cexHandle)).toOption =
      some ⟨['a'], ['b', '@', '1'], ['m'], []⟩ ∧
    cexHandle.plugin ≠ [] ∧ cexHandle.version ≠ [] ∧ cexHandle.method ≠ [] := by
  decide

/-- C4 (amended): for every handle with non-empty plugin, version and
method in which the plugin contains no at-sign, the version contains no
double colon and does not end in a colon, and the method and every meta
entry contain no colon, parsing the displayed string returns the same
handle; and display of an empty meta list produces no trailing colon. -/
theorem handle_display_roundtrip (h : Handle)
    (_hp : h.plugin ≠ []) (_hv : h.version ≠ []) (hm0 : h.method ≠ [])
    (hat : '@' ∉ h.plugin)
    (hvc : noCC (h.version ++ [':']) = true)
    (hmc : ':' ∉ h.method)
    (hmetac : ∀ m ∈ h.meta, ':' ∉ m) :
    Handle.fromStr (Handle.display h) = .ok h ∧
    (h.meta = [] → (Handle.display h).getLast? ≠ some ':') := by
  constructor
  · rw [Handle.display, Handle.fromStr,
      splitOnceChar_append '@' h.plugin _ hat]
    dsimp only
    rw [splitOnce2_append h.version _ hvc]
    dsimp only
    rw [splitChar_method_meta hmc hmetac]
  · intro hnil
    rw [Handle.display, hnil]
    simp only [List.map_nil, List.flatten_nil, List.append_nil]
    have hform : h.plugin ++ '@' :: (h.version ++ ':' :: ':' :: h.method) =
        (h.plugin ++ '@' :: (h.version ++ [':', ':'])) ++ h.method := by
      simp [List.append_assoc]
    rw [hform, List.getLast?_append_of_ne_nil _ hm0]
    exact not_mem_getLast? hmc

/-- C4 witness: the amended round-trip at the concrete scenario handle
`cone@1.0.0::chat:msg-123:user`. -/
theorem handle_display_roundtrip_witness :
    Handle.fromStr (Handle.display scenarioHandle) = .ok scenarioHandle ∧
    (scenarioHandle.meta = [] →
      (Handle.display scenarioHandle).getLast? ≠ some ':') :=
  handle_display_roundtrip scenarioHandle (by decide) (by decide) (by decide)
    (by decide) (by decide) (by decide) (by decide)

/-- C5: `Handle::from_str` accepts an input with an empty plugin instead
of rejecting it. -/
theorem handle_fromStr_accepts_empty_plugin :
    (Handle.fromStr "@1.0.0::m".data).toOption =
      some ⟨[], "1.0.0".data, ['m'], []⟩ ∧
    (Handle.fromStr "p@1.0.0::".data).toOption =
      some ⟨['p'], "1.0.0".data, [], []⟩ := by
  decide

/-- C5 (amended): `Handle::from_str` succeeds exactly on the strings that
contain an at-sign followed (in the remainder after the first at-sign) by
a double colon; plugin, version and method may be empty, no emptiness
validation is performed. -/
theorem handle_fromStr_ok_iff (s : List Char) :
    (Handle.fromStr s).isOk = true ↔
      ∃ a b c : List Char, s = a ++ '@' :: (b ++ ':' :: ':' :: c) ∧
        '@' ∉ a := by
  constructor
  · intro hok
    rw [Handle.fromStr] at hok
    cases hsp : splitOnceChar '@' s with
    | none => rw [hsp] at hok; simp [Except.isOk, Except.toBool] at hok
    | some pr =>
      obtain ⟨p, rest⟩ := pr
      rw [hsp] at hok
      dsimp only at hok
      cases hsp2 : splitOnce2 rest with
      | none => rw [hsp2] at hok; simp [Except.isOk, Except.toBool] at hok
      | some vm =>
        obtain ⟨v, mm⟩ := vm
        obtain ⟨hs, hnp⟩ := splitOnceChar_some '@' hsp
        have hrest := splitOnce2_some hsp2
        exact ⟨p, v, mm, by rw [hs, hrest], hnp⟩
  · rintro ⟨a, b, c, hs, ha⟩
    rw [hs, Handle.fromStr, splitOnceChar_append '@' a _ ha]
    cases hsp2 : splitOnce2 (b ++ ':' :: ':' :: c) with
    | none =>
      have := splitOnce2_isSome b c
      rw [hsp2] at this
      simp at this
    | some vm =>
      obtain ⟨v, mm⟩ := vm
      dsimp only
      rw [hsp2]
      dsimp only
      cases hsp3 : splitChar ':' mm with
      | nil => exact absurd hsp3 (splitChar_ne_nil ':' mm)
      | cons m ms => rfl

/-! ## MCP protocol state machine (src/mcp/state.rs) -/

/-- The `McpState` enum of src/mcp/state.rs. -/
inductive McpState where
  | Uninitialized
  | Initializing
  | Ready
  | ShuttingDown
deriving DecidableEq

/-- The `McpStateError` enum of src/mcp/state.rs. -/
inductive McpStateError where
  | InvalidTransition (src : McpState) (dst : McpState)
  | WrongState (expected : McpState) (actual : McpState)
  | NotReady (actual : McpState)
deriving DecidableEq

/-- The `matches!` predicate inside `McpStateMachine::transition`
(src/mcp/state.rs): the three allowed edges. -/
def validTransition : McpState → McpState → Bool
  | .Uninitialized, .Initializing => true
  | .Initializing, .Ready => true
  | .Ready, .ShuttingDown => true
  | _, _ => false

/-- `McpStateMachine::transition` (src/mcp/state.rs): the resulting
state together with the returned error, starting from state `s` and
requesting `dst`. On a valid edge the state becomes `dst`; otherwise the
state is unchanged and `InvalidTransition` is returned. -/
def transition (s dst : McpState) : McpState × Option McpStateError :=
  if validTransition s dst then (dst, none)
  else (s, some (.InvalidTransition s dst))

/-- A sequence of `transition` calls applied to a machine created by
`McpStateMachine::new` (initial state `Uninitialized`); each call keeps
the new state on success and the old state on failure. -/
def runTransitions (reqs : List McpState) : McpState :=
  reqs.foldl (fun s dst => (transition s dst).1) .Uninitialized

/-- C8: after any sequence of transition calls starting from
`Uninitialized`, a further transition succeeds exactly on the three
allowed edges; on any other request the returned error is
`InvalidTransition` naming the current and requested states and the
current state is unchanged. -/
theorem mcp_transition_spec (reqs : List McpState) (dst : McpState) :
    (((transition (runTransitions reqs) dst).2 = none) ↔
      ((runTransitions reqs = .Uninitialized ∧ dst = .Initializing) ∨
       (runTransitions reqs = .Initializing ∧ dst = .Ready) ∨
       (runTransitions reqs = .Ready ∧ dst = .ShuttingDown))) ∧
    ((transition (runTransitions reqs) dst).1 =
      if (transition (runTransitions reqs) dst).2 = none then dst
      else runTransitions reqs) ∧
    ((transition (runTransitions reqs) dst).2 = none ∨
      (transition (runTransitions reqs) dst).2 =
        some (.InvalidTransition (runTransitions reqs) dst)) := by
  generalize runTransitions reqs = s
  cases s <;> cases dst <;> decide

/-! ## MCP error codes (src/mcp/error.rs) -/

/-- The `ErrorCode` enum of src/mcp/error.rs with its JSON-RPC integer
values. -/
inductive ErrorCode where
  | ParseError
  | InvalidRequest
  | MethodNotFound
  | InvalidParams
  | InternalError
  | ServerNotInitialized
  | RequestCancelled
deriving DecidableEq

/-- The discriminant values assigned in src/mcp/error.rs. -/
def ErrorCode.toInt : ErrorCode → Int
  | .ParseError => -32700
  | .InvalidRequest => -32600
  | .MethodNotFound => -32601
  | .InvalidParams => -32602
  | .InternalError => -32603
  | .ServerNotInitialized => -32002
  | .RequestCancelled => -32800

/-- The `McpError` enum of src/mcp/error.rs. -/
inductive McpError where
  | MethodNotFound (method : String)
  | InvalidParams (msg : String)
  | State (e : McpStateError)
  | UnsupportedVersion (v : String)
  | ToolNotFound (name : String)
  | ResourceNotFound (uri : String)
  | PromptNotFound (name : String)
  | Internal (msg : String)
  | NotImplemented (method : String)
  | Serialization (msg : String)
deriving DecidableEq

/-- `McpError::code` (src/mcp/error.rs): the JSON-RPC error code; for
`State` errors only `NotReady` maps to `ServerNotInitialized`, every
other state error maps to `InvalidRequest`. -/
def McpError.code : McpError → Int
  | .MethodNotFound _ => ErrorCode.MethodNotFound.toInt
  | .InvalidParams _ => ErrorCode.InvalidParams.toInt
  | .State e =>
    match e with
    | .NotReady _ => ErrorCode.ServerNotInitialized.toInt
    | _ => ErrorCode.InvalidRequest.toInt
  | .UnsupportedVersion _ => ErrorCode.InvalidParams.toInt
  | .ToolNotFound _ => ErrorCode.InvalidParams.toInt
  | .ResourceNotFound _ => ErrorCode.InvalidParams.toInt
  | .PromptNotFound _ => ErrorCode.InvalidParams.toInt
  | .Internal _ => ErrorCode.InternalError.toInt
  | .NotImplemented _ => ErrorCode.MethodNotFound.toInt
  | .Serialization _ => ErrorCode.ParseError.toInt

/-- C9: a lifecycle violation other than `NotReady` does not surface
with code -32002: an `InvalidTransition` error has JSON-RPC code -32600. -/
theorem mcp_state_error_code_counterexample :
    (McpError.State (.InvalidTransition .Uninitialized .Ready)).code =
      -32600 ∧
    (McpError.State (.InvalidTransition .Uninitialized .Ready)).code ≠
      -32002 := by
  decide

/-- C9 (amended): among the lifecycle violations only `NotReady`
surfaces as -32002 (Server Not Initialized); `InvalidTransition` and
`WrongState` surface as -32600 (Invalid Request). -/
theorem mcp_state_error_codes (s1 s2 s3 s4 s5 : McpState) :
    (McpError.State (.NotReady s1)).code = -32002 ∧
    (McpError.State (.InvalidTransition s2 s3)).code = -32600 ∧
    (McpError.State (.WrongState s4 s5)).code = -32600 :=
  ⟨rfl, rfl, rfl⟩

/-! ## 64-bit hashing (`std::hash::DefaultHasher`, used by
`Plexus::compute_hash` in src/plexus/plexus.rs)

`DefaultHasher::new()` is SipHash-1-3 keyed with two zero keys. Hashing
a Rust `String` feeds the UTF-8 bytes of the string followed by a single
0xff byte into the hasher. 64-bit words are modelled as `Nat` reduced
modulo `2 ^ 64`.
-/

/-- Two to the sixty-fourth power. -/
def M64 : Nat := 18446744073709551616

/-- Reduce to a 64-bit value. -/
def wrap64 (x : Nat) : Nat := x % M64

/-- 64-bit rotate left of a value below `M64`. -/
def rotl64 (x r : Nat) : Nat := wrap64 (x <<< r) ||| (x >>> (64 - r))

/-- SipHash internal state. -/
structure SipState where
  v0 : Nat
  v1 : Nat
  v2 : Nat
  v3 : Nat

/-- One SipHash round. -/
def sipRound (s : SipState) : SipState :=
  let v0 := wrap64 (s.v0 + s.v1)
  let v1 := rotl64 s.v1 13
  let v1 := v1 ^^^ v0
  let v0 := rotl64 v0 32
  let v2 := wrap64 (s.v2 + s.v3)
  let v3 := rotl64 s.v3 16
  let v3 := v3 ^^^ v2
  let v0 := wrap64 (v0 + v3)
  let v3 := rotl64 v3 21
  let v3 := v3 ^^^ v0
  let v2 := wrap64 (v2 + v1)
  let v1 := rotl64 v1 17
  let v1 := v1 ^^^ v2
  let v2 := rotl64 v2 32
  ⟨v0, v1, v2, v3⟩

/-- Little-endian interpretation of a byte list. -/
def le64 (bytes : List Nat) : Nat :=
  bytes.foldr (fun b acc => acc * 256 + b) 0

/-- SipHash-1-3 compression loop and finalization: one round per full
8-byte block, then the length-tagged final block and three finalization
rounds. -/
def sipBlocks : SipState → List Nat → Nat → Nat
  | s, b0 :: b1 :: b2 :: b3 :: b4 :: b5 :: b6 :: b7 :: rest, len =>
    let m := le64 [b0, b1, b2, b3, b4, b5, b6, b7]
    let s1 := sipRound { s with v3 := s.v3 ^^^ m }
    sipBlocks { s1 with v0 := s1.v0 ^^^ m } rest len
  | s, msg, len =>
    let b := wrap64 ((len % 256) <<< 56) ||| le64 msg
    let s1 := sipRound { s with v3 := s.v3 ^^^ b }
    let s2 := { s1 with v0 := s1.v0 ^^^ b, v2 := s1.v2 ^^^ 255 }
    let s3 := sipRound (sipRound (sipRound s2))
    s3.v0 ^^^ s3.v1 ^^^ s3.v2 ^^^ s3.v3

/-- SipHash-1-3 with both keys zero, as produced by
`DefaultHasher::new()`. -/
def sipHash13 (msg : List Nat) : Nat :=
  sipBlocks ⟨0x736f6d6570736575, 0x646f72616e646f6d,
    0x6c7967656e657261, 0x7465646279746573⟩ msg msg.length

/-- UTF-8 encoding of one character as a byte list. -/
def utf8EncodeCharNat (c : Char) : List Nat :=
  let n := c.toNat
  if n < 128 then [n]
  else if n < 2048 then [192 + n / 64, 128 + n % 64]
  else if n < 65536 then
    [224 + n / 4096, 128 + n / 64 % 64, 128 + n % 64]
  else
    [240 + n / 262144, 128 + n / 4096 % 64, 128 + n / 64 % 64, 128 + n % 64]

/-- UTF-8 bytes of a character list. -/
def utf8Bytes (l : List Char) : List Nat :=
  (l.map utf8EncodeCharNat).flatten

/-- `Hasher::finish` after `Hash for str` (the UTF-8 bytes followed by a
0xff separator byte) on a fresh `DefaultHasher`. -/
def defaultHashChars (l : List Char) : Nat :=
  sipHash13 (utf8Bytes l ++ [255])

/-- One lowercase hexadecimal digit. -/
def hexDigit : Nat → Char
  | 0 => '0'
  | 1 => '1'
  | 2 => '2'
  | 3 => '3'
  | 4 => '4'
  | 5 => '5'
  | 6 => '6'
  | 7 => '7'
  | 8 => '8'
  | 9 => '9'
  | 10 => 'a'
  | 11 => 'b'
  | 12 => 'c'
  | 13 => 'd'
  | 14 => 'e'
  | _ => 'f'

/-- Rust formatting of a 64-bit value as sixteen lowercase hexadecimal
digits, zero padded, most significant first. -/
def toHex16 (n : Nat) : String :=
  ⟨(List.range 16).map (fun i => hexDigit (n / 16 ^ (15 - i) % 16))⟩

theorem toHex16_sanity : toHex16 255 = "00000000000000ff" := by decide

theorem sipHash13_sanity :
    sipHash13 [] = 0xd1fba762150c532c ∧
    defaultHashChars "abc".data = 0xef09e0f4895a251d := by
  decide

/-! ## JSON values and the stream envelope (src/plexus/types.rs) -/

/-- A JSON value, as produced by serde_json serialization. -/
inductive Value where
  | null
  | bool (b : Bool)
  | num (n : Int)
  | str (s : String)
  | arr (xs : List Value)
  | obj (fields : List (String × Value))

/-- An IEEE-754 single-precision value, modelled by its bit pattern.
No claim computes with percentages, so no arithmetic is provided. -/
structure F32 where
  bits : Nat
deriving DecidableEq

/-- The `StreamMetadata` struct of src/plexus/types.rs. -/
structure StreamMetadata where
  provenance : List String
  plexus_hash : String
  timestamp : Int
deriving DecidableEq

/-- `StreamMetadata::new` (src/plexus/types.rs): metadata stamped with
the current time, passed explicitly as `now`. -/
def StreamMetadata.new (provenance : List String) (plexus_hash : String)
    (now : Int) : StreamMetadata :=
  ⟨provenance, plexus_hash, now⟩

/-- The `PlexusStreamItem` enum of src/plexus/types.rs: the universal
stream envelope. The source defines exactly these four variants. -/
inductive PlexusStreamItem where
  | Data (metadata : StreamMetadata) (content_type : String) (content : Value)
  | Progress (metadata : StreamMetadata) (message : String)
      (percentage : Option F32)
  | Error (metadata : StreamMetadata) (message : String)
      (code : Option String) (recoverable : Bool)
  | Done (metadata : StreamMetadata)

/-- The metadata carried by an envelope (every variant carries one). -/
def PlexusStreamItem.metadataOf : PlexusStreamItem → StreamMetadata
  | .Data m _ _ => m
  | .Progress m _ _ => m
  | .Error m _ _ _ => m
  | .Done m => m

/-- Terminal items in the sense of the specification: `Done`, or an
`Error` with `recoverable = false`. -/
def PlexusStreamItem.isTerminalItem : PlexusStreamItem → Bool
  | .Done _ => true
  | .Error _ _ _ r => !r
  | _ => false

/-- The `PlexusError` enum of src/plexus/plexus.rs. -/
inductive PlexusError where
  | ActivationNotFound (name : String)
  | MethodNotFound (activation : String) (method : String)
  | InvalidParams (msg : String)
  | ExecutionError (msg : String)
  | HandleNotSupported (activation : String)
deriving DecidableEq

/-- `impl Display for PlexusError` (src/plexus/plexus.rs). -/
def PlexusError.toMessage : PlexusError → String
  | .ActivationNotFound name => "Activation not found: " ++ name
  | .MethodNotFound a m => "Method not found: " ++ a ++ "." ++ m
  | .InvalidParams msg => "Invalid params: " ++ msg
  | .ExecutionError msg => "Execution error: " ++ msg
  | .HandleNotSupported a =>
    "Handle resolution not supported by activation: " ++ a

/-! ## The Plexus router (src/plexus/plexus.rs)

An activation stream is modelled as the finite list of items it yields.
A registered activation is its version, description, declared method
list and its (arbitrary) `call` behaviour. The `pending_rpc` field of
`PlexusInner` only stores jsonrpsee module factories and is not
modelled.
-/

/-- The router-visible interface of a registered activation
(`ActivationObject` in src/plexus/plexus.rs). -/
structure ActivationModel where
  version : String
  description : String
  methods : List String
  call : String → Value → Except PlexusError (List PlexusStreamItem)

/-- The `Plexus` registry: a finite map from namespace to activation,
modelled as an association list with unique keys. -/
structure Plexus where
  activations : List (String × ActivationModel)

/-- `HashMap::insert` semantics: replace the binding of an existing key,
otherwise add a new one. -/
def insertAssoc : List (String × ActivationModel) → String →
    ActivationModel → List (String × ActivationModel)
  | [], ns, a => [(ns, a)]
  | q :: rest, ns, a =>
    if q.1 = ns then (ns, a) :: rest else q :: insertAssoc rest ns a

/-- `Plexus::register` restricted to its registry update (the unique
ownership check is modelled separately below). -/
def Plexus.register (p : Plexus) (ns : String) (a : ActivationModel) :
    Plexus :=
  ⟨insertAssoc p.activations ns a⟩

/-- The method list that `Plexus` reports for itself
(`impl Activation for Plexus`, src/plexus/plexus.rs). -/
def plexusMethods : List String :=
  ["call", "hash", "list_activations", "schema"]

/-- The `namespace:version:m0,m1,...` line of `Plexus::compute_hash`. -/
def activationHashString (ns version : String) (methods : List String) :
    String :=
  ns ++ ":" ++ version ++ ":" ++ String.intercalate "," methods

/-- `Vec::<String>::sort`: lexicographic sort, modelled by insertion
sort over the character lists. -/
def sortStrings (l : List String) : List String :=
  (List.insertionSort (· ≤ ·) (l.map String.data)).map String.mk

/-- `Plexus::compute_hash` (src/plexus/plexus.rs): format one line for
the router itself and one per registered activation, sort, join with
semicolons, hash with `DefaultHasher` and format as sixteen lowercase
hexadecimal digits. -/
def Plexus.computeHash (p : Plexus) : String :=
  let strings : List String :=
    activationHashString "plexus" "1.0.0" plexusMethods ::
      p.activations.map
        (fun q => activationHashString q.1 q.2.version q.2.methods)
  toHex16 (defaultHashChars
    (String.intercalate ";" (sortStrings strings)).data)

/-- The `ActivationInfo` struct of src/plexus/plexus.rs. The Rust field
named after the reserved word namespace is called `ns` here. -/
structure ActivationInfo where
  ns : String
  version : String
  description : String
  methods : List String

/-- `Plexus::list_activations` (src/plexus/plexus.rs): the router itself
first, then the registered activations. -/
def Plexus.listActivations (p : Plexus) : List ActivationInfo :=
  ⟨"plexus", "1.0.0", "Central routing and introspection", plexusMethods⟩ ::
    p.activations.map (fun q => ⟨q.1, q.2.version, q.2.description, q.2.methods⟩)

/-- `Plexus::list_methods` (src/plexus/plexus.rs): the dotted method
names of the router and of every registered activation, sorted. -/
def Plexus.listMethods (p : Plexus) : List String :=
  sortStrings (plexusMethods.map (fun m => "plexus." ++ m) ++
    (p.activations.map
      (fun q => q.2.methods.map (fun m => q.1 ++ "." ++ m))).flatten)

/-- serde serialization of `HashEvent::Hash` (tag field `event`,
snake case). -/
def hashEventValue (value : String) : Value :=
  .obj [("event", .str "hash"), ("value", .str value)]

/-- serde serialization of `ListActivationsEvent::Activation`. -/
def listActivationsEventValue (a : ActivationInfo) : Value :=
  .obj [("event", .str "activation"), ("namespace", .str a.ns),
    ("version", .str a.version), ("description", .str a.description),
    ("methods", .arr (a.methods.map .str))]

/-- serde serialization of `ActivationInfo`. -/
def ActivationInfo.toValue (a : ActivationInfo) : Value :=
  .obj [("namespace", .str a.ns), ("version", .str a.version),
    ("description", .str a.description),
    ("methods", .arr (a.methods.map .str))]

/-- serde serialization of `SchemaEvent::Schema`. -/
def schemaEventValue (activations : List ActivationInfo)
    (totalMethods : Nat) : Value :=
  .obj [("event", .str "schema"),
    ("activations", .arr (activations.map ActivationInfo.toValue)),
    ("total_methods", .num totalMethods)]

/-- `wrap_stream` (src/plexus/streaming.rs): map each already-serialized
activation event to a `Data` envelope carrying the supplied content type
and provenance, the global context hash `ctxHash` and the wrap time
`now`. -/
def wrapStream (events : List Value) (content_type : String)
    (provenance : List String) (ctxHash : String) (now : Int) :
    List PlexusStreamItem :=
  events.map (fun e =>
    .Data (StreamMetadata.new provenance ctxHash now) content_type e)

/-- `Plexus::parse_method` (src/plexus/plexus.rs): `splitn(2, dot)`
yields two parts exactly when the string contains a dot; otherwise
`InvalidParams`. -/
def parseMethod (method : String) : Except PlexusError (String × String) :=
  match splitOnceChar '.' method.data with
  | some p => .ok (⟨p.1⟩, ⟨p.2⟩)
  | none => .error (.InvalidParams ("Invalid method format: " ++ method))

/-- The `CallParams` struct of src/plexus/plexus.rs. -/
structure CallParams where
  method : String
  params : Value

/-- serde deserialization of `CallParams`: an object with a required
string field `method` and an optional field `params` defaulting to
null. The serde error text is abbreviated. -/
def parseCallParams (v : Value) : Except String CallParams :=
  match v with
  | .obj fields =>
    match fields.lookup "method" with
    | some (.str m) => .ok ⟨m, ((fields.lookup "params").getD .null)⟩
    | some _ => .error "invalid type for field method"
    | none => .error "missing field method"
  | _ => .error "invalid type: expected struct CallParams"

/-- `Plexus::route` (src/plexus/plexus.rs), with the body of
`Activation::call for Plexus` inlined in the `plexus` branch. Routing
through `plexus.call` re-enters `route`; the `fuel` argument bounds that
re-entry (in Rust the recursion is bounded by the finite depth of the
params value) and one unit is consumed per call. -/
def Plexus.route (p : Plexus) (ctxHash : String) (now : Int) :
    Nat → String → Value → Except PlexusError (List PlexusStreamItem)
  | 0, _, _ => .error (.ExecutionError "recursion depth exhausted")
  | fuel + 1, method, params =>
    match parseMethod method with
    | .error e => .error e
    | .ok (ns, name) =>
      if ns = "plexus" then
        if name = "call" then
          match parseCallParams params with
          | .error msg => .error (.InvalidParams msg)
          | .ok cp => p.route ctxHash now fuel cp.method cp.params
        else if name = "hash" then
          .ok (wrapStream [hashEventValue p.computeHash]
            "plexus.hash" ["plexus"] ctxHash now)
        else if name = "list_activations" then
          .ok (wrapStream (p.listActivations.map listActivationsEventValue)
            "plexus.list_activations" ["plexus"] ctxHash now)
        else if name = "schema" then
          .ok (wrapStream
            [schemaEventValue p.listActivations p.listMethods.length]
            "plexus.schema" ["plexus"] ctxHash now)
        else
          .error (.MethodNotFound "plexus" name)
      else
        match p.activations.lookup ns with
        | some a => a.call name params
        | none => .error (.ActivationNotFound ns)

/-- The sequence of envelopes `PlexusRpcServer::rpc_call`
(src/plexus/plexus.rs) emits for one subscription, given the result of
`route`: the child items (or a single non-recoverable `Error` when
routing failed), always followed by one synthetic `Done`. Assumes every
sink send and serialization succeeds. -/
def rpcCallItems (streamResult : Except PlexusError (List PlexusStreamItem))
    (ctxHash : String) (now : Int) : List PlexusStreamItem :=
  let body :=
    match streamResult with
    | .ok items => items
    | .error e =>
      [.Error (StreamMetadata.new ["plexus"] ctxHash now)
        e.toMessage none false]
  body ++ [.Done (StreamMetadata.new ["plexus"] ctxHash now)]

/-! ## Unique ownership of the registry (src/plexus/plexus.rs,
`Plexus::register`)

`register` calls `Arc::get_mut` on the inner state and panics with
`Cannot register: Plexus has multiple references` when the `Arc` is not
uniquely owned. The reference count and the operations that change it
are modelled explicitly; a panic is `none`. -/

/-- An operation on a `Plexus` value: a `register` call or a `clone`. -/
inductive PlexusOp where
  | registerOp (ns : String) (a : ActivationModel)
  | cloneOp

/-- A `Plexus` handle together with the strong reference count of its
inner `Arc`. -/
structure RcPlexus where
  strong : Nat
  inner : Plexus

/-- `Plexus::new()`: a fresh uniquely owned registry. -/
def RcPlexus.new : RcPlexus := ⟨1, ⟨[]⟩⟩

/-- Apply one operation: `register` succeeds only on a uniquely owned
value (`Arc::get_mut`), otherwise it panics (`none`); `clone` increments
the reference count. -/
def applyOp : RcPlexus → PlexusOp → Option RcPlexus
  | ⟨strong, inner⟩, .registerOp ns a =>
    if strong = 1 then some ⟨1, inner.register ns a⟩ else none
  | ⟨strong, inner⟩, .cloneOp => some ⟨strong + 1, inner⟩

/-- Run a sequence of operations from `Plexus::new()`; `none` when any
step panicked. -/
def runOps (ops : List PlexusOp) : Option RcPlexus :=
  ops.foldlM applyOp RcPlexus.new

/-! ## Theorems about the router -/

/-- C2: every value of the stream envelope type defined in
src/plexus/types.rs is one of the four variants Data, Progress, Error,
Done; in particular the type has no fifth (Request) variant, although
the integration tests of the repository pattern-match one. -/
theorem plexus_stream_item_variants (x : PlexusStreamItem) :
    (∃ m ct c, x = .Data m ct c) ∨
    (∃ m msg p, x = .Progress m msg p) ∨
    (∃ m msg code r, x = .Error m msg code r) ∨
    (∃ m, x = .Done m) := by
  cases x with
  | Data m ct c => exact Or.inl ⟨m, ct, c, rfl⟩
  | Progress m msg p => exact Or.inr (Or.inl ⟨m, msg, p, rfl⟩)
  | Error m msg code r => exact Or.inr (Or.inr (Or.inl ⟨m, msg, code, r, rfl⟩))
  | Done m => exact Or.inr (Or.inr (Or.inr ⟨m, rfl⟩))

/-- The empty registry, `Plexus::new()`. -/
def emptyPlexus : Plexus := ⟨[]⟩

/-- C1: routing `missing.x` on an empty registry makes `rpc_call` emit a
non-recoverable Error followed by a synthetic Done: two terminal items,
the appended Done following an already terminal item. -/
theorem rpc_call_two_terminals_counterexample :
    ((rpcCallItems (emptyPlexus.route "h" 0 1 "missing.x" .null) "h" 0).countP
      (fun i => i.isTerminalItem) = 2) ∧
    ((rpcCallItems (emptyPlexus.route "h" 0 1 "missing.x" .null) "h" 0).length = 2) := by
  constructor
  · rfl
  · rfl

/-- C1 (amended): `rpc_call` always appends exactly one synthetic Done,
unconditionally: the emitted sequence ends with Done, and its number of
terminal items is the number of terminal items of the child stream plus
one (two when routing failed, since the error branch emits a
non-recoverable Error first). Exactly one terminal item is emitted only
when routing succeeded and the child stream emitted none. -/
theorem rpc_call_terminal_framing
    (res : Except PlexusError (List PlexusStreamItem))
    (ctxHash : String) (now : Int) :
    ((rpcCallItems res ctxHash now).getLast? =
      some (.Done (StreamMetadata.new ["plexus"] ctxHash now))) ∧
    ((rpcCallItems res ctxHash now).countP (fun i => i.isTerminalItem) =
      match res with
      | .ok items => items.countP (fun i => i.isTerminalItem) + 1
      | .error _ => 2) := by
  cases res with
  | ok items =>
    constructor
    · simp [rpcCallItems]
    · simp [rpcCallItems, List.countP_append, PlexusStreamItem.isTerminalItem]
  | error e =>
    constructor
    · rfl
    · rfl

/-- An activation whose stream carries empty provenance. -/
def cexActivationC3 : ActivationModel :=
  { version := "1.0.0", description := "", methods := ["m"],
    call := fun _ _ =>
      .ok [.Data (StreamMetadata.new [] "h" 0) "a.event" .null] }

/-- A registry holding only that activation under namespace `a`. -/
def cexPlexusC3 : Plexus := ⟨[("a", cexActivationC3)]⟩

/-- C3: routing `a.m` to the registered activation `a` returns an item
whose provenance is empty — it does not end in `a`, so it is not the
parent provenance extended by the namespace. -/
theorem route_provenance_counterexample :
    (match cexPlexusC3.route "h" 0 1 "a.m" .null with
     | .ok [PlexusStreamItem.Data m _ _] => m.provenance.getLast?
     | _ => some "a") ≠ some "a" := by
  decide

/-- C3 (amended): `route` performs no wrapping: a call dispatched to a
registered activation returns the stream of `Activation::call`
unchanged, so each item keeps exactly the provenance the activation
attached; and `wrap_stream` stamps every produced item with exactly the
provenance vector supplied by its caller, not a parent-extended one. -/
theorem route_passthrough (p : Plexus) (ctxHash : String) (now : Int)
    (fuel : Nat) (ns name : String) (a : ActivationModel) (params : Value)
    (hdot : '.' ∉ ns.data) (hns : ns ≠ "plexus")
    (hlook : p.activations.lookup ns = some a) :
    (p.route ctxHash now (fuel + 1) (ns ++ "." ++ name) params =
      a.call name params) ∧
    (∀ events ct prov h2 n2,
      (wrapStream events ct prov h2 n2).map
        (fun i => i.metadataOf.provenance) = events.map (fun _ => prov)) := by
  constructor
  · have hdata : (ns ++ "." ++ name).data = ns.data ++ '.' :: name.data := by
      simp [String.data_append]
    rw [Plexus.route, parseMethod, hdata, splitOnceChar_append _ _ _ hdot]
    dsimp only
    rw [if_neg hns, hlook]
  · intro events ct prov h2 n2
    simp only [wrapStream, List.map_map]
    rfl

/-- C3 witness: the amended statement at the concrete registry. -/
theorem route_passthrough_witness :
    (cexPlexusC3.route "h" 0 1 ("a" ++ "." ++ "m") Value.null =
      cexActivationC3.call "m" Value.null) ∧
    (∀ events ct prov h2 n2,
      (wrapStream events ct prov h2 n2).map
        (fun i => i.metadataOf.provenance) = events.map (fun _ => prov)) :=
  route_passthrough cexPlexusC3 "h" 0 0 "a" "m" cexActivationC3 .null
    (by decide) (by decide) (by rfl)

/-! ## Theorems about the hash -/

theorem insertAssoc_comm {l : List (String × ActivationModel)}
    {ns1 ns2 : String} {a b : ActivationModel} (h : ns1 ≠ ns2) :
    List.Perm (insertAssoc (insertAssoc l ns1 a) ns2 b)
      (insertAssoc (insertAssoc l ns2 b) ns1 a) := by
  induction l with
  | nil =>
    simp only [insertAssoc, h, Ne.symm h, if_false]
    exact List.Perm.swap _ _ _
  | cons q rest ih =>
    by_cases h1 : q.1 = ns1
    · have h2 : q.1 ≠ ns2 := h1 ▸ h
      simp only [insertAssoc, h1, h2, if_true, if_false, Ne.symm h, h]
      exact List.Perm.refl _
    · by_cases h2 : q.1 = ns2
      · simp only [insertAssoc, h1, h2, if_true, if_false, Ne.symm h, h]
        exact List.Perm.refl _
      · simp only [insertAssoc, h1, h2, if_false]
        exact List.Perm.cons _ ih

theorem sortStrings_congr {l1 l2 : List String} (h : l1.Perm l2) :
    sortStrings l1 = sortStrings l2 := by
  unfold sortStrings
  congr 1
  exact List.eq_of_perm_of_sorted
    ((List.perm_insertionSort _ _).trans
      ((h.map _).trans (List.perm_insertionSort _ _).symm))
    (List.sorted_insertionSort _ _) (List.sorted_insertionSort _ _)

theorem computeHash_perm {p q : Plexus}
    (h : p.activations.Perm q.activations) :
    p.computeHash = q.computeHash := by
  simp only [Plexus.computeHash]
  rw [sortStrings_congr (List.Perm.cons _ (h.map _))]

/-- The sixteen lowercase hexadecimal digits. -/
def hexDigitList : List Char := "0123456789abcdef".data

theorem hexDigit_mem (d : Nat) : hexDigit d ∈ hexDigitList := by
  rcases Nat.lt_or_ge d 15 with hlt | hge
  · interval_cases d <;> decide
  · obtain ⟨k, rfl⟩ : ∃ k, d = k + 15 := ⟨d - 15, by omega⟩
    exact (show hexDigit (k + 15) = 'f' from rfl) ▸ (by decide)

/-- Activation with version 1.0.0 and a single method. -/
def cexActV1 : ActivationModel := ⟨"1.0.0", "", ["m"], fun _ _ => .ok []⟩

/-- Activation with version 2.0.0 and a single method. -/
def cexActV2 : ActivationModel := ⟨"2.0.0", "", ["m"], fun _ _ => .ok []⟩

/-- C6: registering two activations with the same namespace in the two
orders yields different hashes, because the duplicate namespace
overwrites and the last registration wins. -/
theorem compute_hash_order_counterexample :
    ((emptyPlexus.register "a" cexActV1).register "a" cexActV2).computeHash ≠
      ((emptyPlexus.register "a" cexActV2).register "a" cexActV1).computeHash := by
  decide

/-- C6 (amended): for activations with distinct namespaces the hash is
registration-order independent; the hash is a pure function of the
registry contents up to permutation; and it is always sixteen lowercase
hexadecimal digits. -/
theorem compute_hash_order_independence (p : Plexus) (ns1 ns2 : String)
    (a b : ActivationModel) (h : ns1 ≠ ns2) :
    (((p.register ns1 a).register ns2 b).computeHash =
      ((p.register ns2 b).register ns1 a).computeHash) ∧
    (∀ q r : Plexus, q.activations.Perm r.activations →
      q.computeHash = r.computeHash) ∧
    (∀ q : Plexus, q.computeHash.length = 16 ∧
      ∀ c ∈ q.computeHash.data, c ∈ hexDigitList) := by
  refine ⟨computeHash_perm (insertAssoc_comm h), fun q r hp => computeHash_perm hp, fun q => ⟨?_, ?_⟩⟩
  · simp [Plexus.computeHash, toHex16, String.length]
  · intro c hc
    simp only [Plexus.computeHash, toHex16, List.mem_map] at hc
    obtain ⟨i, _, rfl⟩ := hc
    exact hexDigit_mem _

/-- C6 witness: the amended statement at two concrete activations with
distinct namespaces. -/
theorem compute_hash_order_independence_witness :
    (((emptyPlexus.register "a" cexActV1).register "b" cexActV2).computeHash =
      ((emptyPlexus.register "b" cexActV2).register "a" cexActV1).computeHash) ∧
    (∀ q r : Plexus, q.activations.Perm r.activations →
      q.computeHash = r.computeHash) ∧
    (∀ q : Plexus, q.computeHash.length = 16 ∧
      ∀ c ∈ q.computeHash.data, c ∈ hexDigitList) :=
  compute_hash_order_independence emptyPlexus "a" "b" cexActV1 cexActV2
    (by decide)

/-! ## Theorems about dispatch errors -/

theorem parseMethod_append (ns name : String) (h : '.' ∉ ns.data) :
    parseMethod (ns ++ "." ++ name) = .ok (ns, name) := by
  have hdata : (ns ++ "." ++ name).data = ns.data ++ '.' :: name.data := by
    simp [String.data_append]
  rw [parseMethod, hdata, splitOnceChar_append _ _ _ h]

/-- C7: `route` splits at the first dot — a method string without a dot
is rejected with `InvalidParams`, and a dotted method whose namespace is
neither `plexus` nor registered is rejected with `ActivationNotFound`
naming that namespace. -/
theorem route_dispatch_errors (p : Plexus) (ctxHash : String) (now : Int)
    (fuel : Nat) :
    (∀ method params, '.' ∉ method.data →
      p.route ctxHash now (fuel + 1) method params =
        .error (.InvalidParams ("Invalid method format: " ++ method))) ∧
    (∀ ns name params, '.' ∉ ns.data → ns ≠ "plexus" →
      p.activations.lookup ns = none →
      p.route ctxHash now (fuel + 1) (ns ++ "." ++ name) params =
        .error (.ActivationNotFound ns)) := by
  constructor
  · intro method params hdot
    rw [Plexus.route, parseMethod,
      (splitOnceChar_eq_none '.' method.data).mpr hdot]
  · intro ns name params hdot hns hlook
    rw [Plexus.route, parseMethod_append ns name hdot]
    dsimp only
    rw [if_neg hns, hlook]

/-- C7 witness: dispatch errors at concrete inputs on the empty
registry. -/
theorem route_dispatch_errors_witness :
    (emptyPlexus.route "h" 0 1 "nodot" .null =
      .error (.InvalidParams ("Invalid method format: " ++ "nodot"))) ∧
    (emptyPlexus.route "h" 0 1 ("missing" ++ "." ++ "x") .null =
      .error (.ActivationNotFound "missing")) :=
  ⟨(route_dispatch_errors emptyPlexus "h" 0 0).1 "nodot" .null (by decide),
   (route_dispatch_errors emptyPlexus "h" 0 0).2 "missing" "x" .null
     (by decide) (by decide) (by rfl)⟩

/-! ## Theorems about unique ownership of the registry -/

theorem lookup_insertAssoc (l : List (String × ActivationModel))
    (ns : String) (a : ActivationModel) :
    (insertAssoc l ns a).lookup ns = some a := by
  induction l with
  | nil => simp [insertAssoc, List.lookup]
  | cons q rest ih =>
    by_cases hq : q.1 = ns
    · simp [insertAssoc, hq, List.lookup]
    · simp only [insertAssoc, hq, if_false, List.lookup]
      have hbe : (ns == q.1) = false := by
        simp only [beq_eq_false_iff_ne, ne_eq]
        exact fun hc => hq hc.symm
      rw [hbe]
      exact ih

theorem runOps_registers_aux :
    ∀ (ops : List PlexusOp) (st : RcPlexus), st.strong = 1 →
      (∀ op ∈ ops, ∃ ns a, op = .registerOp ns a) →
      ∃ r, ops.foldlM applyOp st = some r ∧ r.strong = 1
  | [], st, hs, _ => ⟨st, rfl, hs⟩
  | op :: rest, st, hs, h => by
    obtain ⟨ns, a, hop⟩ := h op (List.mem_cons_self _ _)
    subst hop
    obtain ⟨strong, inner⟩ := st
    simp only at hs
    subst hs
    simp only [List.foldlM_cons, applyOp, if_pos rfl, Option.some_bind]
    exact runOps_registers_aux rest ⟨1, inner.register ns a⟩ rfl
      (fun o ho => h o (List.mem_cons_of_mem _ ho))

/-- C10: `register` succeeds exactly on a uniquely owned `Plexus`: with
reference count one it inserts (a duplicate namespace overwriting the
previous binding); with any clone alive it panics; and a trace that
never clones keeps the count at one, so the panic branch is never
reached. -/
theorem register_unique_ownership (ops : List PlexusOp)
    (h : ∀ op ∈ ops, ∃ ns a, op = PlexusOp.registerOp ns a) :
    (∃ r, runOps ops = some r ∧ r.strong = 1) ∧
    (∀ st : RcPlexus, ∀ ns a, 2 ≤ st.strong →
      applyOp st (.registerOp ns a) = none) ∧
    (∀ inner ns a, applyOp ⟨1, inner⟩ (.registerOp ns a) =
      some ⟨1, inner.register ns a⟩) ∧
    (∀ p : Plexus, ∀ ns a b,
      ((p.register ns a).register ns b).activations.lookup ns = some b) := by
  refine ⟨runOps_registers_aux ops RcPlexus.new rfl h, ?_, ?_, ?_⟩
  · rintro ⟨strong, inner⟩ ns a hge
    simp only at hge
    simp only [applyOp]
    rw [if_neg (by omega)]
  · intro inner ns a
    simp [applyOp]
  · intro p ns a b
    exact lookup_insertAssoc _ ns b

/-- C10 witness: a trace of two register calls with no clone runs
without panicking. -/
theorem register_unique_ownership_witness :
    (∃ r, runOps [PlexusOp.registerOp "a" cexActV1,
        PlexusOp.registerOp "a" cexActV2] = some r ∧ r.strong = 1) ∧
    (∀ st : RcPlexus, ∀ ns a, 2 ≤ st.strong →
      applyOp st (.registerOp ns a) = none) ∧
    (∀ inner ns a, applyOp ⟨1, inner⟩ (.registerOp ns a) =
      some ⟨1, inner.register ns a⟩) ∧
    (∀ p : Plexus, ∀ ns a b,
      ((p.register ns a).register ns b).activations.lookup ns = some b) :=
  register_unique_ownership _ (by
    intro op hop
    simp only [List.mem_cons, List.mem_singleton] at hop
    rcases hop with rfl | rfl | h
    · exact ⟨"a", cexActV1, rfl⟩
    · exact ⟨"a", cexActV2, rfl⟩
    · cases h)

end PlexusSubstrate
